import Mathlib

/-!
Verification development for the NLP-zipf-visualiser repository.

The repository sources provide `src/app.py` (option parsing, `build_pipeline`,
`analyze`, the routes) and `src/services/fetchers.py`.  The modules
`services/processor.py` (`run_pipeline`), `services/steps.py` (the step-function
library) and `services/metrics.py` (the metrics functions) are imported by
`src/app.py` but are not among the sources; their definitions below are
modelled from the specification and each carries a doc comment saying so.
All machine strings are embedded as Lean `String`s and token sequences as
`List String`; every definition is structurally recursive and executable.
-/

namespace ZipfVis

/-- Token sequences: ordered lists of string tokens (spec, data model). -/
abbrev Tokens := List String

/-- Accumulator for whitespace splitting: `cur` holds the current in-progress
word reversed; maximal runs of non-whitespace characters become tokens and
empty fragments are dropped, exactly like Python `str.split()`. -/
def wordsAux : List Char → List Char → Tokens
  | [], cur => if cur.isEmpty then [] else [String.mk cur.reverse]
  | c :: cs, cur =>
    if c.isWhitespace then
      if cur.isEmpty then wordsAux cs [] else String.mk cur.reverse :: wordsAux cs []
    else wordsAux cs (c :: cur)

/-- Modelled from the spec: `tokenize_step` of `services/steps.py` is not under
`src/`; the spec fixes it as splitting raw text into tokens on whitespace
boundaries. -/
def tokenize (s : String) : Tokens := wordsAux s.data []

/-- ASCII punctuation, the four ASCII ranges 33-47, 58-64, 91-96, 123-126
(Python `string.punctuation`). -/
def isPunctChar (c : Char) : Bool :=
  (33 ≤ c.toNat && c.toNat ≤ 47) || (58 ≤ c.toNat && c.toNat ≤ 64) ||
  (91 ≤ c.toNat && c.toNat ≤ 96) || (123 ≤ c.toNat && c.toNat ≤ 126)

/-- Remove every punctuation character from one token. -/
def stripPunct (t : String) : String :=
  String.mk (t.data.filter (fun c => !isPunctChar c))

/-- Modelled from the spec: `remove_punctuation_step` of `services/steps.py` is
not under `src/`; strip punctuation characters from each token and drop tokens
that become empty. -/
def remove_punctuation_step (ts : Tokens) : Tokens :=
  (ts.map stripPunct).filter (fun t => !(t == ""))

/-- Modelled from the spec: `filter_alpha_step` of `services/steps.py` is not
under `src/`; keep only tokens composed entirely of alphabetic characters
(Python `str.isalpha`, false on the empty string). -/
def filter_alpha_step (ts : Tokens) : Tokens :=
  ts.filter (fun t => !(t == "") && t.data.all Char.isAlpha)

/-- Lowercase a string characterwise (Python `str.lower`). -/
def lowerStr (s : String) : String := String.mk (s.data.map Char.toLower)

/-- Modelled from the spec: `lowercase_step` of `services/steps.py` is not
under `src/`; map every token to lowercase. -/
def lowercase_step (ts : Tokens) : Tokens := ts.map lowerStr

/-- Modelled from the spec: the fixed stop-word set of `services/steps.py` is
not under `src/`; the spec calls it static language-specific configuration
data (articles, prepositions and similar common words) and no claim depends
on its exact contents, so a representative English set is used. -/
def STOP_WORDS : List String :=
  ["the", "a", "an", "and", "or", "but", "if", "then", "in", "on", "at",
   "of", "to", "is", "are", "was", "were", "it", "this", "that", "he",
   "she", "they", "we", "you", "i", "for", "with", "as", "by", "be"]

/-- Modelled from the spec: `remove_stop_words_step` of `services/steps.py` is
not under `src/`; drop tokens present in the fixed stop-word set. -/
def remove_stop_words_step (ts : Tokens) : Tokens :=
  ts.filter (fun t => !(STOP_WORDS.contains t))

/-- Drop whitespace from both ends of a character list (Python `str.strip`). -/
def trimChars (cs : List Char) : List Char :=
  ((cs.dropWhile Char.isWhitespace).reverse.dropWhile Char.isWhitespace).reverse

/-- Whitespace-trim a string at both ends. -/
def pyStrip (s : String) : String := String.mk (trimChars s.data)

/-- Split a character list at every comma, keeping empty fragments, exactly
like Python `str.split(sep)` with an explicit separator. -/
def splitCommaAux : List Char → List Char → List String
  | [], cur => [String.mk cur.reverse]
  | c :: cs, cur =>
    if c == ',' then String.mk cur.reverse :: splitCommaAux cs []
    else splitCommaAux cs (c :: cur)

/-- Comma-split of a string, as `build_pipeline` in `src/app.py` does with
`options['words_to_exclude'].split(',')`. -/
def splitComma (s : String) : List String := splitCommaAux s.data []

/-- Modelled from the spec: `create_exclusion_step` of `services/steps.py` is
not under `src/`; drop tokens matching any word of the supplied list,
case-insensitively, after trimming whitespace around each excluded word. -/
def create_exclusion_step (words : List String) (ts : Tokens) : Tokens :=
  ts.filter (fun t => !((words.map (fun w => lowerStr (pyStrip w))).contains (lowerStr t)))

/-- The running value of a pipeline: the raw text before the tokenizer has
run, a token sequence afterwards (Python passes one dynamically typed value
through the steps). -/
inductive Val where
  | text : String → Val
  | toks : Tokens → Val
deriving DecidableEq

/-- The step variants that `build_pipeline` in `src/app.py` can place in a
pipeline, as a discriminated union so that the step list is plain data; the
exclusion variant carries its word-list parameter the way the Python closure
`create_exclusion_step(words)` captures it. -/
inductive StepTag where
  | tokenize : StepTag
  | removePunctuation : StepTag
  | filterAlpha : StepTag
  | lowercase : StepTag
  | identity : StepTag
  | removeStopWords : StepTag
  | exclude : List String → StepTag
deriving DecidableEq

/-- Analysis options consumed by `build_pipeline` (`src/app.py`): four boolean
flags and the comma-separated exclusion string. -/
structure Options where
  remove_punctuation : Bool
  filter_alpha : Bool
  case_sensitive : Bool
  remove_stop_words : Bool
  words_to_exclude : String
deriving DecidableEq

/-- `build_pipeline` from `src/app.py`, transcribed append by append: a list
of labeled steps built from the options.  Python's truthiness test
`if options['words_to_exclude']` is the non-emptiness test on the string. -/
def build_pipeline (o : Options) : List (String × StepTag) :=
  let steps := [("raw", StepTag.tokenize)]
  let steps := if o.remove_punctuation then steps ++ [("cleaned_punct", StepTag.removePunctuation)] else steps
  let steps := if o.filter_alpha then steps ++ [("cleaned_alpha", StepTag.filterAlpha)] else steps
  let steps := if o.case_sensitive then steps else steps ++ [("normalized", StepTag.lowercase)]
  let steps := steps ++ [("before_stop_words", StepTag.identity)]
  let steps := if o.remove_stop_words then steps ++ [("after_stop_words", StepTag.removeStopWords)] else steps
  let steps := if o.words_to_exclude ≠ "" then
      steps ++ [("final", StepTag.exclude (splitComma o.words_to_exclude))]
    else steps ++ [("final", StepTag.identity)]
  steps

/-- Interpretation of a step variant on the running value.  A step applied to
a value of the wrong shape fails, as the corresponding Python call would raise
(e.g. tokenizing a list); pipelines produced by `build_pipeline` never reach
those cases because they begin with the tokenizer. -/
def applyStep : StepTag → Val → Except String Val
  | StepTag.tokenize, Val.text s => Except.ok (Val.toks (tokenize s))
  | StepTag.removePunctuation, Val.toks ts => Except.ok (Val.toks (remove_punctuation_step ts))
  | StepTag.filterAlpha, Val.toks ts => Except.ok (Val.toks (filter_alpha_step ts))
  | StepTag.lowercase, Val.toks ts => Except.ok (Val.toks (lowercase_step ts))
  | StepTag.identity, v => Except.ok v
  | StepTag.removeStopWords, Val.toks ts => Except.ok (Val.toks (remove_stop_words_step ts))
  | StepTag.exclude ws, Val.toks ts => Except.ok (Val.toks (create_exclusion_step ws ts))
  | _, _ => Except.error "TypeError"

/-- Turn the tagged step list into the (label, function) pairs `run_pipeline`
consumes. -/
def toSteps (l : List (String × StepTag)) : List (String × (Val → Except String Val)) :=
  l.map (fun p => (p.1, applyStep p.2))

/-- Snapshot map: label-keyed association list standing for the Python dict
(insertion order preserved, insert overwrites in place). -/
abbrev SnapMap := List (String × Val)

/-- Dict insertion: overwrite an existing key in place, otherwise append. -/
def insertSnap : SnapMap → String → Val → SnapMap
  | [], k, v => [(k, v)]
  | (k2, v2) :: rest, k, v =>
    if k2 = k then (k, v) :: rest else (k2, v2) :: insertSnap rest k v

/-- Dict lookup by label. -/
def lookupSnap : SnapMap → String → Option Val
  | [], _ => none
  | (k2, v2) :: rest, l => if k2 = l then some v2 else lookupSnap rest l

/-- Modelled from the spec: the core loop of `run_pipeline`
(`services/processor.py` is not under `src/`): invoke each step on the current
value, replace the current value with the result and snapshot it under the
step's label; a raising step propagates its error unmodified. -/
def runSteps {ε : Type} (v : Val) (snaps : SnapMap) :
    List (String × (Val → Except ε Val)) → Except ε (Val × SnapMap)
  | [] => Except.ok (v, snaps)
  | p :: rest =>
    match p.2 v with
    | Except.ok v2 => runSteps v2 (insertSnap snaps p.1 v2) rest
    | Except.error e => Except.error e

/-- The two error kinds of the pipeline engine: a configuration error for an
empty step list, and a step-execution error wrapping the raising step's error
unmodified. -/
inductive RunError (ε : Type) where
  | config : RunError ε
  | step : ε → RunError ε
deriving DecidableEq

/-- Modelled from the spec: `run_pipeline` of `services/processor.py` is not
under `src/`; it fails with a configuration error on an empty step list and
otherwise folds the steps over the raw text, returning the final value and
the snapshot map. -/
def run_pipeline {ε : Type} (text : String)
    (steps : List (String × (Val → Except ε Val))) : Except (RunError ε) (Val × SnapMap) :=
  match steps with
  | [] => Except.error RunError.config
  | p :: rest =>
    match runSteps (Val.text text) [] (p :: rest) with
    | Except.ok r => Except.ok r
    | Except.error e => Except.error (RunError.step e)

/-- Modelled from the spec: `get_word_count` of `services/metrics.py` is not
under `src/`; the length of the token sequence. -/
def get_word_count (ts : Tokens) : Nat := ts.length

/-- First-occurrence deduplication with an accumulator of already-seen
tokens. -/
def dedupFirstAux (seen : Tokens) : Tokens → Tokens
  | [] => []
  | t :: ts =>
    if seen.contains t then dedupFirstAux seen ts
    else t :: dedupFirstAux (t :: seen) ts

/-- Distinct tokens of a sequence in first-occurrence order. -/
def dedupFirst (ts : Tokens) : Tokens := dedupFirstAux [] ts

/-- Modelled from the spec: `get_unique_word_count` of `services/metrics.py`
is not under `src/`; the number of distinct tokens under case-sensitive
equality. -/
def get_unique_word_count (ts : Tokens) : Nat := (dedupFirst ts).length

/-- Modelled from the spec: `get_character_count` of `services/metrics.py` is
not under `src/`; total characters of the raw text, whitespace included. -/
def get_character_count (s : String) : Nat := s.length

/-- Modelled from the spec: `get_character_count_no_spaces` of
`services/metrics.py` is not under `src/`; total characters excluding all
whitespace characters. -/
def get_character_count_no_spaces (s : String) : Nat :=
  (s.data.filter (fun c => !c.isWhitespace)).length

/-- Word frequency table: each distinct word, in first-occurrence order,
paired with its occurrence count. -/
def freqTable (ts : Tokens) : List (String × Nat) :=
  (dedupFirst ts).map (fun w => (w, ts.count w))

/-- Stable descending insertion by count: the new entry goes in front of the
first entry whose count is not larger, so an entry never passes one of equal
count. -/
def insertDesc (x : String × Nat) : List (String × Nat) → List (String × Nat)
  | [] => [x]
  | y :: ys => if y.2 ≤ x.2 then x :: y :: ys else y :: insertDesc x ys

/-- Stable sort by non-increasing count; ties keep their input order. -/
def sortDesc (l : List (String × Nat)) : List (String × Nat) := l.foldr insertDesc []

/-- Modelled from the spec: `get_most_frequent_words` of `services/metrics.py`
is not under `src/`; the first `n` entries of the frequency table sorted by
non-increasing count with ties broken by first occurrence, empty whenever
`n ≤ 0`. -/
def get_most_frequent_words (ts : Tokens) (n : Int) : List (String × Nat) :=
  (sortDesc (freqTable ts)).take n.toNat

/-- Attach 1-based ranks, starting from `r`, to a frequency-sorted table. -/
def zipfFrom (r : Nat) : List (String × Nat) → List (Nat × Nat)
  | [] => []
  | p :: ps => (r, p.2) :: zipfFrom (r + 1) ps

/-- Modelled from the spec: `get_zipf_data` of `services/metrics.py` is not
under `src/`; one (rank, frequency) pair per distinct word, ranked by the
same ordering rule as the most-frequent-words list. -/
def get_zipf_data (ts : Tokens) : List (Nat × Nat) :=
  zipfFrom 1 (sortDesc (freqTable ts))

/-- Extract the token sequence from a running value.  Every value reaching
the metrics in `analyze` is a token list, because `build_pipeline` starts
with the tokenizer; the text case is unreachable there. -/
def valToks : Val → Tokens
  | Val.toks ts => ts
  | Val.text _ => []

/-- The lookup `snapshots.get(label, [])` performed by `analyze` in
`src/app.py`: missing labels default to the empty sequence. -/
def getSnapToks (snaps : SnapMap) (l : String) : Tokens :=
  match lookupSnap snaps l with
  | some v => valToks v
  | none => []

/-- The result record `analyze` in `src/app.py` returns. -/
structure AnalysisResult where
  word_count : Nat
  unique_word_count : Nat
  char_count : Nat
  char_count_no_spaces : Nat
  chart_before : List (String × Nat)
  chart_after : List (String × Nat)
  zipf_before : List (Nat × Nat)
  zipf_after : List (Nat × Nat)
deriving DecidableEq

/-- The record `analyze` builds from the pipeline output: counts from the
final processed sequence, character counts from the raw content, both chart
series with n = 50 and both Zipf series from the two snapshots
(`src/app.py`, `analyze`). -/
def buildResult (content : String) (v : Val) (snaps : SnapMap) : AnalysisResult :=
  { word_count := get_word_count (valToks v)
    unique_word_count := get_unique_word_count (valToks v)
    char_count := get_character_count content
    char_count_no_spaces := get_character_count_no_spaces content
    chart_before := get_most_frequent_words (getSnapToks snaps "before_stop_words") 50
    chart_after := get_most_frequent_words (getSnapToks snaps "final") 50
    zipf_before := get_zipf_data (getSnapToks snaps "before_stop_words")
    zipf_after := get_zipf_data (getSnapToks snaps "final") }

/-- `analyze` from `src/app.py`: build the pipeline from the options, run it
on the content and assemble the result record; a pipeline error propagates. -/
def analyze (content : String) (o : Options) : Except (RunError String) AnalysisResult :=
  match run_pipeline content (toSteps (build_pipeline o)) with
  | Except.ok (v, snaps) => Except.ok (buildResult content v snaps)
  | Except.error e => Except.error e

/-- Pure step lists for the pipeline-engine properties: the spec's step
functions are pure and total, so a labeled pure function is lifted into the
fallible interface with `Except.ok`. -/
def liftSteps (fns : List (String × (Val → Val))) :
    List (String × (Val → Except String Val)) :=
  fns.map (fun p => (p.1, fun v => Except.ok (p.2 v)))

/-- Fold a pure step list over a starting value. -/
def foldVal (v : Val) (fns : List (String × (Val → Val))) : Val :=
  fns.foldl (fun a p => p.2 a) v

/-- The value obtained by applying the first `k` steps, in order, to the raw
text. -/
def foldUpTo (text : String) (fns : List (String × (Val → Val))) (k : Nat) : Val :=
  foldVal (Val.text text) (fns.take k)

/-- The snapshot map after folding a pure step list from value `v` and
snapshot state `snaps`. -/
def snapsAfter (v : Val) (snaps : SnapMap) : List (String × (Val → Val)) → SnapMap
  | [] => snaps
  | p :: rest => snapsAfter (p.2 v) (insertSnap snaps p.1 (p.2 v)) rest

/-- The filesystem effects the `examples` route of `src/app.py` performs,
made explicit: the directory listing (`none` models `FileNotFoundError` from
`os.listdir`) and the per-file read (`Except.error` carries `str(e)` of the
raised exception). -/
structure ExamplesEnv where
  listing : Option (List String)
  readFile : String → Except String String

/-- Ascending insertion for lexicographic string sorting. -/
def insertStr (x : String) : List String → List String
  | [] => [x]
  | y :: ys => if x ≤ y then x :: y :: ys else y :: insertStr x ys

/-- Sorted list of strings, as Python `sorted`. -/
def sortStrings (l : List String) : List String := l.foldr insertStr []

/-- The file list the `examples` route computes: the sorted `.txt` entries of
the corpora directory, or the empty list when the directory listing raised
`FileNotFoundError` (`src/app.py`, `examples`). -/
def examplesFiles (env : ExamplesEnv) : List String :=
  match env.listing with
  | none => []
  | some fs => sortStrings (fs.filter (fun f => ".txt".data.isSuffixOf f.data))

/-- The selected file: the `file` query argument when present, else the first
listed file, else nothing (`src/app.py`, `examples`). -/
def selectFile (env : ExamplesEnv) (argFile : Option String) : Option String :=
  match argFile with
  | some f => some f
  | none => (examplesFiles env).head?

/-- The content the `examples` route analyzes: empty when no file is
selected; the file's text when reading succeeds; and the sentinel string
built from the exception message when reading raises (`src/app.py`,
`examples`). -/
def examplesContent (env : ExamplesEnv) (selected : Option String) : String :=
  match selected with
  | none => ""
  | some f =>
    match env.readFile f with
    | Except.ok c => c
    | Except.error e => "Error reading file: " ++ e

/-- The analysis the `examples` route performs on the computed content
(`src/app.py`, `examples`). -/
def examplesRoute (env : ExamplesEnv) (argFile : Option String) (o : Options) :
    Except (RunError String) AnalysisResult :=
  analyze (examplesContent env (selectFile env argFile)) o

/-! ### Snapshot-map lemmas -/

lemma lookupSnap_insertSnap_self (m : SnapMap) (k : String) (v : Val) :
    lookupSnap (insertSnap m k v) k = some v := by
  induction m with
  | nil => simp [insertSnap, lookupSnap]
  | cons p rest ih =>
    obtain ⟨k2, v2⟩ := p
    unfold insertSnap
    split
    · simp [lookupSnap]
    · rename_i hne
      simp [lookupSnap, hne, ih]

lemma lookupSnap_insertSnap_ne (m : SnapMap) (k : String) (v : Val) (l : String)
    (h : l ≠ k) : lookupSnap (insertSnap m k v) l = lookupSnap m l := by
  have hk : ¬ k = l := fun he => h he.symm
  induction m with
  | nil => simp [insertSnap, lookupSnap, hk]
  | cons p rest ih =>
    obtain ⟨k2, v2⟩ := p
    unfold insertSnap
    split
    · rename_i hk2
      subst hk2
      simp [lookupSnap, hk]
    · simp only [lookupSnap, ih]

/-! ### Pipeline-engine lemmas -/

lemma runSteps_cons {ε : Type} (v : Val) (s : SnapMap)
    (p : String × (Val → Except ε Val)) (rest : List (String × (Val → Except ε Val))) :
    runSteps v s (p :: rest) =
      match p.2 v with
      | Except.ok v2 => runSteps v2 (insertSnap s p.1 v2) rest
      | Except.error e => Except.error e := rfl

lemma runSteps_append {ε : Type} (pre rest : List (String × (Val → Except ε Val)))
    (v : Val) (s : SnapMap) (v2 : Val) (s2 : SnapMap)
    (h : runSteps v s pre = Except.ok (v2, s2)) :
    runSteps v s (pre ++ rest) = runSteps v2 s2 rest := by
  induction pre generalizing v s with
  | nil =>
    simp only [runSteps, Except.ok.injEq, Prod.mk.injEq] at h
    rw [List.nil_append, h.1, h.2]
  | cons p ps ih =>
    rw [List.cons_append]
    cases hf : p.2 v with
    | ok v3 =>
      simp only [runSteps_cons, hf] at h ⊢
      exact ih v3 (insertSnap s p.1 v3) h
    | error e => simp only [runSteps_cons, hf] at h; simp at h

lemma runSteps_total {ε : Type} (steps : List (String × (Val → Except ε Val)))
    (htot : ∀ p ∈ steps, ∀ v, ∃ v2, p.2 v = Except.ok v2) :
    ∀ v s, ∃ v2 s2, runSteps v s steps = Except.ok (v2, s2) := by
  induction steps with
  | nil => exact fun v s => ⟨v, s, rfl⟩
  | cons p ps ih =>
    intro v s
    obtain ⟨v2, hv2⟩ := htot p (List.mem_cons_self p ps) v
    obtain ⟨v3, s3, h3⟩ := ih (fun q hq => htot q (List.mem_cons_of_mem p hq)) v2
      (insertSnap s p.1 v2)
    refine ⟨v3, s3, ?_⟩
    unfold runSteps
    rw [hv2]
    exact h3

lemma runSteps_lookup_isSome {ε : Type} (steps : List (String × (Val → Except ε Val)))
    (v : Val) (s : SnapMap) (v2 : Val) (s2 : SnapMap)
    (h : runSteps v s steps = Except.ok (v2, s2)) :
    ∀ l, (l ∈ steps.map Prod.fst ∨ (lookupSnap s l).isSome = true) →
      (lookupSnap s2 l).isSome = true := by
  induction steps generalizing v s with
  | nil =>
    simp only [runSteps, Except.ok.injEq, Prod.mk.injEq] at h
    intro l hl
    rcases hl with hl | hl
    · simp at hl
    · rw [← h.2]; exact hl
  | cons p ps ih =>
    unfold runSteps at h
    cases hf : p.2 v with
    | error e => rw [hf] at h; cases h
    | ok v3 =>
      rw [hf] at h
      intro l hl
      refine ih v3 (insertSnap s p.1 v3) h l ?_
      rcases hl with hl | hl
      · rw [List.map_cons, List.mem_cons] at hl
        rcases hl with hl | hl
        · right; rw [hl, lookupSnap_insertSnap_self]; rfl
        · left; exact hl
      · by_cases hlp : l = p.1
        · right; rw [hlp, lookupSnap_insertSnap_self]; rfl
        · right; rw [lookupSnap_insertSnap_ne _ _ _ _ hlp]; exact hl

lemma labels_toSteps (l : List (String × StepTag)) :
    (toSteps l).map Prod.fst = l.map Prod.fst := by
  simp [toSteps, List.map_map]

/-! ### Shape of the built pipeline -/

lemma build_pipeline_eq (o : Options) :
    build_pipeline o =
      [("raw", StepTag.tokenize)]
      ++ (if o.remove_punctuation then [("cleaned_punct", StepTag.removePunctuation)] else [])
      ++ (if o.filter_alpha then [("cleaned_alpha", StepTag.filterAlpha)] else [])
      ++ (if o.case_sensitive then [] else [("normalized", StepTag.lowercase)])
      ++ [("before_stop_words", StepTag.identity)]
      ++ (if o.remove_stop_words then [("after_stop_words", StepTag.removeStopWords)] else [])
      ++ [("final", if o.words_to_exclude ≠ "" then StepTag.exclude (splitComma o.words_to_exclude)
            else StepTag.identity)] := by
  rcases o with ⟨rp, fa, cs, rsw, w⟩
  by_cases hw : w = "" <;> cases rp <;> cases fa <;> cases cs <;> cases rsw <;>
    simp [build_pipeline, hw]

/-- The pipeline after its mandatory leading tokenizer, in the flattened
form of `build_pipeline_eq`. -/
def bpRest (o : Options) : List (String × StepTag) :=
  (if o.remove_punctuation then [("cleaned_punct", StepTag.removePunctuation)] else [])
  ++ (if o.filter_alpha then [("cleaned_alpha", StepTag.filterAlpha)] else [])
  ++ (if o.case_sensitive then [] else [("normalized", StepTag.lowercase)])
  ++ [("before_stop_words", StepTag.identity)]
  ++ (if o.remove_stop_words then [("after_stop_words", StepTag.removeStopWords)] else [])
  ++ [("final", if o.words_to_exclude ≠ "" then StepTag.exclude (splitComma o.words_to_exclude)
        else StepTag.identity)]

lemma bp_cons (o : Options) :
    build_pipeline o = ("raw", StepTag.tokenize) :: bpRest o := by
  rw [build_pipeline_eq, bpRest]
  simp [List.append_assoc]

lemma bpRest_no_tokenize (o : Options) :
    ∀ p ∈ bpRest o, p.2 ≠ StepTag.tokenize := by
  intro p hp
  unfold bpRest at hp
  simp only [List.mem_append, List.mem_singleton, List.mem_cons] at hp
  rcases hp with ((((hp | hp) | hp) | hp) | hp) | hp
  · split at hp <;> simp_all
  · split at hp <;> simp_all
  · split at hp <;> simp_all
  · simp_all
  · split at hp <;> simp_all
  · rcases hp with rfl | hp
    · split <;> simp
    · simp at hp

lemma bpRest_mem_before (o : Options) :
    "before_stop_words" ∈ (bpRest o).map Prod.fst := by
  unfold bpRest
  simp

lemma bpRest_mem_final (o : Options) :
    "final" ∈ (bpRest o).map Prod.fst := by
  unfold bpRest
  simp

/-! ### Pure step lists: folds and snapshots -/

lemma foldVal_cons (v : Val) (p : String × (Val → Val)) (ps : List (String × (Val → Val))) :
    foldVal v (p :: ps) = foldVal (p.2 v) ps := rfl

lemma runSteps_liftSteps (fns : List (String × (Val → Val))) :
    ∀ (v : Val) (s : SnapMap),
      runSteps v s (liftSteps fns) = Except.ok (foldVal v fns, snapsAfter v s fns) := by
  induction fns with
  | nil => intro v s; rfl
  | cons p ps ih =>
    intro v s
    show runSteps v s ((p.1, fun v2 => Except.ok (p.2 v2)) :: liftSteps ps) = _
    rw [runSteps_cons]
    exact ih (p.2 v) (insertSnap s p.1 (p.2 v))

lemma lookupSnap_snapsAfter_not_mem (fns : List (String × (Val → Val))) :
    ∀ (v : Val) (s : SnapMap) (l : String), l ∉ fns.map Prod.fst →
      lookupSnap (snapsAfter v s fns) l = lookupSnap s l := by
  induction fns with
  | nil => intro v s l _; rfl
  | cons p ps ih =>
    intro v s l hl
    rw [List.map_cons, List.mem_cons] at hl
    push_neg at hl
    show lookupSnap (snapsAfter (p.2 v) (insertSnap s p.1 (p.2 v)) ps) l = _
    rw [ih (p.2 v) _ l hl.2, lookupSnap_insertSnap_ne _ _ _ _ hl.1]

lemma lookupSnap_snapsAfter_get (fns : List (String × (Val → Val)))
    (hnd : (fns.map Prod.fst).Nodup) :
    ∀ (v : Val) (s : SnapMap) (k : Nat) (hk : k < fns.length),
      lookupSnap (snapsAfter v s fns) (fns.get ⟨k, hk⟩).1 =
        some (foldVal v (fns.take (k + 1))) := by
  induction fns with
  | nil => intro v s k hk; exact absurd hk (by simp)
  | cons p ps ih =>
    rw [List.map_cons, List.nodup_cons] at hnd
    intro v s k hk
    cases k with
    | zero =>
      show lookupSnap (snapsAfter (p.2 v) (insertSnap s p.1 (p.2 v)) ps) p.1 = _
      rw [lookupSnap_snapsAfter_not_mem ps _ _ _ hnd.1, lookupSnap_insertSnap_self]
      rfl
    | succ k2 =>
      show lookupSnap (snapsAfter (p.2 v) (insertSnap s p.1 (p.2 v)) ps) (ps.get ⟨k2, _⟩).1 = _
      exact ih hnd.2 (p.2 v) (insertSnap s p.1 (p.2 v)) k2 (Nat.lt_of_succ_lt_succ hk)

lemma getLastD_labels (fns : List (String × (Val → Val))) (h : fns ≠ []) :
    ∀ d : String, (fns.map Prod.fst).getLastD d = (fns.getLast h).1 := by
  induction fns with
  | nil => exact absurd rfl h
  | cons p ps ih =>
    intro d
    cases ps with
    | nil => rfl
    | cons q rest =>
      rw [List.map_cons, List.getLastD_cons, List.getLast_cons, ih]
      exact List.cons_ne_nil q rest

/-! ### The empty token sequence is preserved by every non-tokenizer step -/

lemma applyStep_nil (t : StepTag) (ht : t ≠ StepTag.tokenize) :
    applyStep t (Val.toks []) = Except.ok (Val.toks []) := by
  cases t with
  | tokenize => exact absurd rfl ht
  | removePunctuation => rfl
  | filterAlpha => rfl
  | lowercase => rfl
  | identity => rfl
  | removeStopWords => rfl
  | exclude ws => rfl

lemma runSteps_nil_toks (sts : List (String × StepTag))
    (hnt : ∀ p ∈ sts, p.2 ≠ StepTag.tokenize) :
    ∀ snaps : SnapMap, ∃ snaps2,
      runSteps (Val.toks []) snaps (toSteps sts) = Except.ok (Val.toks [], snaps2) ∧
      ∀ l, lookupSnap snaps2 l = some (Val.toks []) ∨ lookupSnap snaps2 l = lookupSnap snaps l := by
  induction sts with
  | nil => exact fun snaps => ⟨snaps, rfl, fun l => Or.inr rfl⟩
  | cons p ps ih =>
    intro snaps
    have hp : applyStep p.2 (Val.toks []) = Except.ok (Val.toks []) :=
      applyStep_nil p.2 (hnt p (List.mem_cons_self p ps))
    obtain ⟨snaps2, hrun, hlook⟩ :=
      ih (fun q hq => hnt q (List.mem_cons_of_mem p hq)) (insertSnap snaps p.1 (Val.toks []))
    refine ⟨snaps2, ?_, ?_⟩
    · show runSteps (Val.toks []) snaps ((p.1, applyStep p.2) :: toSteps ps) = _
      rw [runSteps_cons]
      simp only [hp]
      exact hrun
    · intro l
      rcases hlook l with hl | hl
      · exact Or.inl hl
      · by_cases hlp : l = p.1
        · subst hlp
          rw [hl, lookupSnap_insertSnap_self]
          exact Or.inl rfl
        · rw [hl, lookupSnap_insertSnap_ne _ _ _ _ hlp]
          exact Or.inr rfl

lemma tokenize_empty : tokenize "" = [] := rfl

lemma analyze_empty (o : Options) :
    analyze "" o = Except.ok ⟨0, 0, 0, 0, [], [], [], []⟩ := by
  obtain ⟨snaps2, hrun, hlook⟩ :=
    runSteps_nil_toks (bpRest o) (bpRest_no_tokenize o) [("raw", Val.toks [])]
  have hsnap : ∀ l, getSnapToks snaps2 l = [] := by
    intro l
    rcases hlook l with hl | hl
    · rw [getSnapToks, hl]; rfl
    · rw [getSnapToks, hl]
      by_cases hr : "raw" = l
      · simp [lookupSnap, hr, valToks]
      · simp [lookupSnap, hr]
  have hrp : run_pipeline "" (toSteps (build_pipeline o)) =
      Except.ok (Val.toks [], snaps2) := by
    rw [bp_cons]
    have hts : toSteps (("raw", StepTag.tokenize) :: bpRest o) =
        ("raw", applyStep StepTag.tokenize) :: toSteps (bpRest o) := rfl
    have hstep2 : runSteps (Val.text "") [] (("raw", applyStep StepTag.tokenize) :: toSteps (bpRest o)) =
        runSteps (Val.toks []) [("raw", Val.toks [])] (toSteps (bpRest o)) := rfl
    rw [hts]
    unfold run_pipeline
    simp only [hstep2, hrun]
  unfold analyze
  rw [hrp]
  show Except.ok (buildResult "" (Val.toks []) snaps2) = _
  simp only [buildResult, hsnap]
  rfl

/-! ### Sorting lemmas -/

lemma sortDesc_cons (x : String × Nat) (xs : List (String × Nat)) :
    sortDesc (x :: xs) = insertDesc x (sortDesc xs) := rfl

lemma mem_insertDesc {z x : String × Nat} :
    ∀ {l : List (String × Nat)}, z ∈ insertDesc x l ↔ z = x ∨ z ∈ l := by
  intro l
  induction l with
  | nil => simp [insertDesc]
  | cons y ys ih =>
    unfold insertDesc
    split
    · simp [List.mem_cons]
    · simp only [List.mem_cons, ih]
      tauto

lemma length_insertDesc (x : String × Nat) :
    ∀ l : List (String × Nat), (insertDesc x l).length = l.length + 1 := by
  intro l
  induction l with
  | nil => rfl
  | cons y ys ih =>
    unfold insertDesc
    split
    · simp
    · simp only [List.length_cons, ih]

lemma length_sortDesc (l : List (String × Nat)) : (sortDesc l).length = l.length := by
  induction l with
  | nil => rfl
  | cons x xs ih => rw [sortDesc_cons, length_insertDesc, ih, List.length_cons]

lemma pairwise_insertDesc (x : String × Nat) (l : List (String × Nat))
    (h : l.Pairwise (fun a b => b.2 ≤ a.2)) :
    (insertDesc x l).Pairwise (fun a b => b.2 ≤ a.2) := by
  induction l with
  | nil => simp [insertDesc]
  | cons y ys ih =>
    rw [List.pairwise_cons] at h
    obtain ⟨hy, hys⟩ := h
    unfold insertDesc
    split
    · rename_i hle
      refine List.Pairwise.cons ?_ (List.Pairwise.cons hy hys)
      intro z hz
      rcases List.mem_cons.mp hz with rfl | hz2
      · exact hle
      · exact le_trans (hy z hz2) hle
    · rename_i hgt
      refine List.Pairwise.cons ?_ (ih hys)
      intro z hz
      rcases mem_insertDesc.mp hz with rfl | hz2
      · exact Nat.le_of_lt (Nat.lt_of_not_le hgt)
      · exact hy z hz2

lemma pairwise_sortDesc (l : List (String × Nat)) :
    (sortDesc l).Pairwise (fun a b => b.2 ≤ a.2) := by
  induction l with
  | nil => simp [sortDesc]
  | cons x xs ih => rw [sortDesc_cons]; exact pairwise_insertDesc x _ ih

lemma filter_insertDesc (x : String × Nat) (c : Nat) :
    ∀ l : List (String × Nat),
      (insertDesc x l).filter (fun p => p.2 == c) =
        if x.2 = c then x :: l.filter (fun p => p.2 == c)
        else l.filter (fun p => p.2 == c) := by
  intro l
  induction l with
  | nil =>
    by_cases hx : x.2 = c <;> simp [insertDesc, List.filter_cons, hx]
  | cons y ys ih =>
    unfold insertDesc
    split
    · rename_i hle
      by_cases hx : x.2 = c <;> simp [List.filter_cons, hx]
    · rename_i hgt
      by_cases hx : x.2 = c
      · have hy : ¬ (y.2 = c) := by
          have : x.2 < y.2 := Nat.lt_of_not_le hgt
          omega
        simp [List.filter_cons, hx, hy, ih]
      · simp [List.filter_cons, hx, ih]

lemma filter_sortDesc (l : List (String × Nat)) (c : Nat) :
    (sortDesc l).filter (fun p => p.2 == c) = l.filter (fun p => p.2 == c) := by
  induction l with
  | nil => rfl
  | cons x xs ih =>
    rw [sortDesc_cons, filter_insertDesc, List.filter_cons]
    by_cases hx : x.2 = c <;> simp [hx, ih]

/-! ### Zipf-series lemmas -/

lemma length_zipfFrom : ∀ (l : List (String × Nat)) (r : Nat), (zipfFrom r l).length = l.length := by
  intro l
  induction l with
  | nil => intro r; rfl
  | cons x xs ih => intro r; rw [zipfFrom, List.length_cons, List.length_cons, ih]

lemma rank_ge_zipfFrom : ∀ (l : List (String × Nat)) (r : Nat) (q : Nat × Nat),
    q ∈ zipfFrom r l → r ≤ q.1 := by
  intro l
  induction l with
  | nil => intro r q hq; simp [zipfFrom] at hq
  | cons x xs ih =>
    intro r q hq
    rw [zipfFrom, List.mem_cons] at hq
    rcases hq with rfl | hq
    · exact Nat.le_refl r
    · exact Nat.le_of_succ_le (ih (r + 1) q hq)

lemma snd_mem_zipfFrom : ∀ (l : List (String × Nat)) (r : Nat) (q : Nat × Nat),
    q ∈ zipfFrom r l → q.2 ∈ l.map Prod.snd := by
  intro l
  induction l with
  | nil => intro r q hq; simp [zipfFrom] at hq
  | cons x xs ih =>
    intro r q hq
    rw [zipfFrom, List.mem_cons] at hq
    rw [List.map_cons, List.mem_cons]
    rcases hq with rfl | hq
    · exact Or.inl rfl
    · exact Or.inr (ih (r + 1) q hq)

lemma pairwise_zipfFrom : ∀ (l : List (String × Nat)) (r : Nat),
    (zipfFrom r l).Pairwise (fun a b => a.1 ≠ b.1) := by
  intro l
  induction l with
  | nil => intro r; simp [zipfFrom]
  | cons x xs ih =>
    intro r
    rw [zipfFrom]
    refine List.Pairwise.cons ?_ (ih (r + 1))
    intro q hq
    have := rank_ge_zipfFrom xs (r + 1) q hq
    omega

/-! ### Claim theorems -/

/-- C1: for every Options record, `build_pipeline` produces its steps in the
fixed order tokenize, remove-punctuation, filter-alpha, lowercase, the
`before_stop_words` snapshot, remove-stop-words, and the `final` step
(exclusion filter or identity); each optional step is present exactly when
its option enables it, and the lowercase step is included exactly when
`case_sensitive` is false. -/
theorem C1_pipeline_step_order (o : Options) :
    build_pipeline o =
      [("raw", StepTag.tokenize)]
      ++ (if o.remove_punctuation then [("cleaned_punct", StepTag.removePunctuation)] else [])
      ++ (if o.filter_alpha then [("cleaned_alpha", StepTag.filterAlpha)] else [])
      ++ (if o.case_sensitive then [] else [("normalized", StepTag.lowercase)])
      ++ [("before_stop_words", StepTag.identity)]
      ++ (if o.remove_stop_words then [("after_stop_words", StepTag.removeStopWords)] else [])
      ++ [("final", if o.words_to_exclude ≠ "" then StepTag.exclude (splitComma o.words_to_exclude)
            else StepTag.identity)]
    ∧ ((("normalized", StepTag.lowercase) ∈ build_pipeline o) ↔ o.case_sensitive = false)
    ∧ ((("cleaned_punct", StepTag.removePunctuation) ∈ build_pipeline o) ↔ o.remove_punctuation = true)
    ∧ ((("cleaned_alpha", StepTag.filterAlpha) ∈ build_pipeline o) ↔ o.filter_alpha = true)
    ∧ ((("after_stop_words", StepTag.removeStopWords) ∈ build_pipeline o) ↔ o.remove_stop_words = true) := by
  refine ⟨build_pipeline_eq o, ?_, ?_, ?_, ?_⟩ <;>
    · rcases o with ⟨rp, fa, cs, rsw, w⟩
      by_cases hw : w = "" <;> cases rp <;> cases fa <;> cases cs <;> cases rsw <;>
        simp [build_pipeline, hw]

/-- Witness for C1 at a concrete options record. -/
theorem C1_pipeline_step_order_witness :
    ("normalized", StepTag.lowercase) ∈ build_pipeline ⟨true, false, false, false, ""⟩ :=
  (C1_pipeline_step_order ⟨true, false, false, false, ""⟩).2.1.mpr rfl

/-- C2: the step list built by `build_pipeline` contains a step labeled
`before_stop_words` and a step labeled `final`, so after any successful run
of that pipeline the snapshot map contains both labels. -/
theorem C2_snapshot_labels_present (o : Options) (text : String) :
    (∃ t, ("before_stop_words", t) ∈ build_pipeline o) ∧
    (∃ t, ("final", t) ∈ build_pipeline o) ∧
    ∀ v snaps, run_pipeline text (toSteps (build_pipeline o)) = Except.ok (v, snaps) →
      (lookupSnap snaps "before_stop_words").isSome = true ∧
      (lookupSnap snaps "final").isSome = true := by
  refine ⟨?_, ?_, ?_⟩
  · obtain ⟨p, hp, hlab⟩ := List.mem_map.mp (bpRest_mem_before o)
    refine ⟨p.2, ?_⟩
    rw [bp_cons, List.mem_cons]
    right
    rw [← hlab]
    exact hp
  · obtain ⟨p, hp, hlab⟩ := List.mem_map.mp (bpRest_mem_final o)
    refine ⟨p.2, ?_⟩
    rw [bp_cons, List.mem_cons]
    right
    rw [← hlab]
    exact hp
  · intro v snaps h
    rw [bp_cons] at h
    have hts : toSteps (("raw", StepTag.tokenize) :: bpRest o) =
        ("raw", applyStep StepTag.tokenize) :: toSteps (bpRest o) := rfl
    rw [hts] at h
    unfold run_pipeline at h
    cases hr : runSteps (Val.text text) []
        (("raw", applyStep StepTag.tokenize) :: toSteps (bpRest o)) with
    | error e => simp only [hr] at h; simp at h
    | ok r =>
      simp only [hr, Except.ok.injEq] at h
      rw [h] at hr
      have hsome := runSteps_lookup_isSome _ _ _ _ _ hr
      constructor
      · refine hsome "before_stop_words" (Or.inl ?_)
        rw [List.map_cons, labels_toSteps]
        exact List.mem_cons_of_mem _ (bpRest_mem_before o)
      · refine hsome "final" (Or.inl ?_)
        rw [List.map_cons, labels_toSteps]
        exact List.mem_cons_of_mem _ (bpRest_mem_final o)

/-- Witness for C2 at a concrete pipeline run. -/
theorem C2_snapshot_labels_present_witness :
    (lookupSnap [("raw", Val.toks []), ("before_stop_words", Val.toks []),
      ("final", Val.toks [])] "before_stop_words").isSome = true ∧
    (lookupSnap [("raw", Val.toks []), ("before_stop_words", Val.toks []),
      ("final", Val.toks [])] "final").isSome = true :=
  (C2_snapshot_labels_present ⟨false, false, true, false, ""⟩ "").2.2 (Val.toks [])
    [("raw", Val.toks []), ("before_stop_words", Val.toks []), ("final", Val.toks [])] rfl

/-- C3: with a non-empty `words_to_exclude`, the `final` step is the exclusion
filter over the comma-split list; the exclusion filter keeps exactly the
tokens whose lowercase form differs from every trimmed, lowercased excluded
word; and on the spec's scenario the final sequence is `[cat, dog]` with
unique word count 2. -/
theorem C3_exclusion_filter_semantics (o : Options) (h : o.words_to_exclude ≠ "") :
    (("final", StepTag.exclude (splitComma o.words_to_exclude)) ∈ build_pipeline o) ∧
    (∀ (ws : List String) (ts : Tokens) (t : String),
      t ∈ create_exclusion_step ws ts ↔
        t ∈ ts ∧ ∀ w ∈ ws, lowerStr t ≠ lowerStr (pyStrip w)) ∧
    create_exclusion_step (splitComma "the, sat")
      ["the", "cat", "sat", "the", "dog", "sat"] = ["cat", "dog"] ∧
    get_unique_word_count (create_exclusion_step (splitComma "the, sat")
      ["the", "cat", "sat", "the", "dog", "sat"]) = 2 := by
  refine ⟨?_, ?_, by decide, by decide⟩
  · rw [bp_cons, List.mem_cons]
    right
    unfold bpRest
    simp [h]
  · intro ws ts t
    simp only [create_exclusion_step, List.mem_filter, Bool.not_eq_true',
      List.contains, List.elem_eq_mem, decide_eq_false_iff_not, List.mem_map,
      not_exists, not_and, ne_eq, and_congr_right_iff]
    intro _
    constructor
    · intro hall w hw heq
      exact hall w hw heq.symm
    · intro hall w hw heq
      exact hall w hw heq.symm

/-- Witness for C3 at the spec's scenario. -/
theorem C3_exclusion_filter_semantics_witness :
    create_exclusion_step (splitComma "the, sat")
      ["the", "cat", "sat", "the", "dog", "sat"] = ["cat", "dog"] :=
  (C3_exclusion_filter_semantics ⟨true, false, false, false, "the, sat"⟩ (by decide)).2.2.1

/-- C4: for every text and non-empty pure step list with distinct labels,
`run_pipeline` succeeds, the snapshot under each step's label is exactly the
fold of the steps up to and including that step applied to the original text,
and the returned final sequence equals the snapshot under the last step's
label. -/
theorem C4_snapshots_are_prefix_folds (text : String) (fns : List (String × (Val → Val)))
    (hne : fns ≠ []) (hnd : (fns.map Prod.fst).Nodup) :
    run_pipeline text (liftSteps fns) =
      Except.ok (foldUpTo text fns fns.length, snapsAfter (Val.text text) [] fns) ∧
    (∀ k (hk : k < fns.length),
      lookupSnap (snapsAfter (Val.text text) [] fns) (fns.get ⟨k, hk⟩).1 =
        some (foldUpTo text fns (k + 1))) ∧
    lookupSnap (snapsAfter (Val.text text) [] fns) ((fns.map Prod.fst).getLastD "") =
      some (foldUpTo text fns fns.length) := by
  have hfold : foldUpTo text fns fns.length = foldVal (Val.text text) fns := by
    rw [foldUpTo, List.take_length]
  have hget := lookupSnap_snapsAfter_get fns hnd (Val.text text) []
  refine ⟨?_, ?_, ?_⟩
  · obtain ⟨q, rest, rfl⟩ : ∃ q rest, fns = q :: rest := by
      cases fns with
      | nil => exact absurd rfl hne
      | cons q rest => exact ⟨q, rest, rfl⟩
    have hlift : liftSteps (q :: rest) =
        (q.1, fun v => Except.ok (q.2 v)) :: liftSteps rest := rfl
    rw [hlift]
    unfold run_pipeline
    have hrs := runSteps_liftSteps (q :: rest) (Val.text text) []
    rw [hlift] at hrs
    simp only [hrs]
    rw [hfold]
  · intro k hk
    exact hget k hk
  · rw [getLastD_labels fns hne, hfold]
    have hlen : 0 < fns.length := List.length_pos.mpr hne
    rw [List.getLast_eq_get fns hne, hget (fns.length - 1) (by omega)]
    have h1 : fns.length - 1 + 1 = fns.length := Nat.sub_add_cancel hlen
    rw [h1, List.take_length]

/-- A one-step pure pipeline used to instantiate C4. -/
def stepListA : List (String × (Val → Val)) := [("a", fun v => v)]

/-- Witness for C4 at a concrete one-step pipeline. -/
theorem C4_snapshots_are_prefix_folds_witness :
    run_pipeline "t" (liftSteps stepListA) =
      Except.ok (foldUpTo "t" stepListA stepListA.length,
        snapsAfter (Val.text "t") [] stepListA) ∧
    lookupSnap (snapsAfter (Val.text "t") [] stepListA)
      ((stepListA.map Prod.fst).getLastD "") =
      some (foldUpTo "t" stepListA stepListA.length) :=
  ⟨(C4_snapshots_are_prefix_folds "t" stepListA (by simp [stepListA]) (by simp [stepListA])).1,
   (C4_snapshots_are_prefix_folds "t" stepListA (by simp [stepListA]) (by simp [stepListA])).2.2⟩

/-- C5: `run_pipeline` fails with a configuration error exactly on the empty
step list; a raising step's error propagates unmodified as a step error; and
a non-empty list of total steps always succeeds, so these are the only
failure paths. -/
theorem C5_pipeline_failure_paths :
    (∀ text : String,
      run_pipeline text ([] : List (String × (Val → Except String Val))) =
        Except.error RunError.config) ∧
    (∀ (text : String) (pre : List (String × (Val → Except String Val)))
        (l : String) (f : Val → Except String Val)
        (post : List (String × (Val → Except String Val)))
        (v : Val) (s : SnapMap) (e : String),
      runSteps (Val.text text) [] pre = Except.ok (v, s) → f v = Except.error e →
      run_pipeline text (pre ++ (l, f) :: post) = Except.error (RunError.step e)) ∧
    (∀ (text : String) (steps : List (String × (Val → Except String Val))),
      steps ≠ [] → (∀ p ∈ steps, ∀ v, ∃ v2, p.2 v = Except.ok v2) →
      ∃ r, run_pipeline text steps = Except.ok r) := by
  refine ⟨fun _ => rfl, ?_, ?_⟩
  · intro text pre l f post v s e h1 h2
    have hfull : runSteps (Val.text text) [] (pre ++ (l, f) :: post) = Except.error e := by
      rw [runSteps_append pre ((l, f) :: post) _ _ _ _ h1, runSteps_cons]
      simp only [h2]
    obtain ⟨q, qs, hcons⟩ : ∃ q qs, pre ++ (l, f) :: post = q :: qs := by
      cases pre with
      | nil => exact ⟨(l, f), post, rfl⟩
      | cons p ps => exact ⟨p, ps ++ (l, f) :: post, rfl⟩
    rw [hcons] at hfull ⊢
    unfold run_pipeline
    simp only [hfull]
  · intro text steps hne htot
    obtain ⟨q, qs, rfl⟩ : ∃ q qs, steps = q :: qs := by
      cases steps with
      | nil => exact absurd rfl hne
      | cons q qs => exact ⟨q, qs, rfl⟩
    obtain ⟨v2, s2, h⟩ := runSteps_total (q :: qs) htot (Val.text text) []
    refine ⟨(v2, s2), ?_⟩
    unfold run_pipeline
    simp only [h]

/-- Witness for C5: a pipeline whose single step raises yields exactly that
step error. -/
theorem C5_pipeline_failure_paths_witness :
    run_pipeline "t" ([] ++ ("boom", fun _ => Except.error "E") ::
        ([] : List (String × (Val → Except String Val)))) =
      Except.error (RunError.step "E") :=
  C5_pipeline_failure_paths.2.1 "t" [] "boom" (fun _ => Except.error "E") []
    (Val.text "t") [] "E" rfl rfl

/-- C6: the metrics are total: on the empty token sequence the word count is
0, the unique word count is 0, the most-frequent-words list is empty and the
Zipf series is empty; N ≤ 0 yields an empty most-frequent-words list; and
analyzing the empty text with any options succeeds with all-zero counts and
empty series. -/
theorem C6_metrics_total_on_empty :
    get_word_count [] = 0 ∧
    get_unique_word_count [] = 0 ∧
    (∀ n : Int, get_most_frequent_words [] n = []) ∧
    get_zipf_data [] = [] ∧
    (∀ (ts : Tokens) (n : Int), n ≤ 0 → get_most_frequent_words ts n = []) ∧
    (∀ o : Options, analyze "" o = Except.ok ⟨0, 0, 0, 0, [], [], [], []⟩) := by
  refine ⟨rfl, rfl, ?_, rfl, ?_, analyze_empty⟩
  · intro n
    rw [get_most_frequent_words]
    rw [show sortDesc (freqTable []) = [] from rfl, List.take_nil]
  · intro ts n hn
    rw [get_most_frequent_words, Int.toNat_of_nonpos hn, List.take_zero]

/-- Witness for C6 at a negative N. -/
theorem C6_metrics_total_on_empty_witness :
    get_most_frequent_words ["x"] (-1) = [] :=
  C6_metrics_total_on_empty.2.2.2.2.1 ["x"] (-1) (by decide)

/-- C7: the most-frequent-words list has length min(N, distinct words), is
sorted by non-increasing count with ties kept in first-occurrence order (its
sort leaves every equal-count class of the first-occurrence-ordered frequency
table unchanged), and both chart series of the analysis result are produced
with N = 50 and so have at most 50 entries. -/
theorem C7_most_frequent_words_shape :
    (∀ (ts : Tokens) (n : Int),
      (get_most_frequent_words ts n).length = min n.toNat (get_unique_word_count ts) ∧
      (get_most_frequent_words ts n).Pairwise (fun a b => b.2 ≤ a.2) ∧
      ∀ c : Nat, (sortDesc (freqTable ts)).filter (fun p => p.2 == c) =
        (freqTable ts).filter (fun p => p.2 == c)) ∧
    (∀ (content : String) (o : Options) (r : AnalysisResult),
      analyze content o = Except.ok r →
      r.chart_before.length ≤ 50 ∧ r.chart_after.length ≤ 50) := by
  have hlen : ∀ (ts : Tokens) (n : Int),
      (get_most_frequent_words ts n).length = min n.toNat (get_unique_word_count ts) := by
    intro ts n
    rw [get_most_frequent_words, List.length_take, length_sortDesc, freqTable,
      List.length_map, get_unique_word_count]
  constructor
  · intro ts n
    refine ⟨hlen ts n, ?_, filter_sortDesc (freqTable ts)⟩
    exact List.Pairwise.sublist (List.take_sublist _ _) (pairwise_sortDesc (freqTable ts))
  · intro content o r h
    unfold analyze at h
    cases hr : run_pipeline content (toSteps (build_pipeline o)) with
    | error e => simp only [hr] at h; simp at h
    | ok pr =>
      obtain ⟨v, snaps⟩ := pr
      simp only [hr, Except.ok.injEq] at h
      subst h
      constructor
      · show (get_most_frequent_words (getSnapToks snaps "before_stop_words") 50).length ≤ 50
        rw [hlen]
        exact Nat.min_le_left _ _
      · show (get_most_frequent_words (getSnapToks snaps "final") 50).length ≤ 50
        rw [hlen]
        exact Nat.min_le_left _ _

/-- Witness for C7 at a concrete analysis run. -/
theorem C7_most_frequent_words_shape_witness :
    (⟨0, 0, 0, 0, [], [], [], []⟩ : AnalysisResult).chart_before.length ≤ 50 ∧
    (⟨0, 0, 0, 0, [], [], [], []⟩ : AnalysisResult).chart_after.length ≤ 50 :=
  C7_most_frequent_words_shape.2 "" ⟨false, false, true, false, ""⟩
    ⟨0, 0, 0, 0, [], [], [], []⟩ rfl

/-- C8: the Zipf series has one entry per distinct word (its length equals
the unique word count), the rank-1 entry carries the maximum frequency of the
series, and no two entries share a rank. -/
theorem C8_zipf_series_shape (ts : Tokens) :
    (get_zipf_data ts).length = get_unique_word_count ts ∧
    (∀ p, p ∈ get_zipf_data ts → p.1 = 1 →
      ∀ q, q ∈ get_zipf_data ts → q.2 ≤ p.2) ∧
    (get_zipf_data ts).Pairwise (fun a b => a.1 ≠ b.1) := by
  refine ⟨?_, ?_, pairwise_zipfFrom _ 1⟩
  · rw [get_zipf_data, length_zipfFrom, length_sortDesc, freqTable, List.length_map,
      get_unique_word_count]
  · intro p hp hp1 q hq
    rw [get_zipf_data] at hp hq
    cases hs : sortDesc (freqTable ts) with
    | nil => rw [hs] at hp; simp [zipfFrom] at hp
    | cons x rest =>
      rw [hs] at hp hq
      rw [zipfFrom, List.mem_cons] at hp hq
      have hpx : p = (1, x.2) := by
        rcases hp with rfl | hp
        · rfl
        · have := rank_ge_zipfFrom rest 2 p hp
          omega
      subst hpx
      rcases hq with rfl | hq
      · exact Nat.le_refl _
      · have hq2 := snd_mem_zipfFrom rest 2 q hq
        obtain ⟨z, hz, hz2⟩ := List.mem_map.mp hq2
        have hpw := pairwise_sortDesc (freqTable ts)
        rw [hs, List.pairwise_cons] at hpw
        have hzx := hpw.1 z hz
        rw [hz2] at hzx
        exact hzx

/-- Witness for C8 on a concrete sequence. -/
theorem C8_zipf_series_shape_witness :
    ((2, 1) : Nat × Nat).2 ≤ ((1, 2) : Nat × Nat).2 :=
  (C8_zipf_series_shape ["a", "b", "a"]).2.1 (1, 2) (by decide) rfl (2, 1) (by decide)

/-- C9: in the examples entry point, a directory-listing failure yields an
empty file list rather than an error, and a file-read exception replaces the
content by the sentinel string "Error reading file: ..." which is then fed
through the analysis as if it were document text. -/
theorem C9_examples_degraded_states (env : ExamplesEnv) (o : Options) (f e : String) :
    (env.listing = none → examplesFiles env = []) ∧
    (env.readFile f = Except.error e →
      examplesContent env (some f) = "Error reading file: " ++ e ∧
      examplesRoute env (some f) o = analyze ("Error reading file: " ++ e) o) := by
  constructor
  · intro h
    unfold examplesFiles
    simp only [h]
  · intro h
    have hc : examplesContent env (some f) = "Error reading file: " ++ e := by
      unfold examplesContent
      simp only [h]
    have hroute : examplesRoute env (some f) o =
        analyze (examplesContent env (some f)) o := rfl
    exact ⟨hc, by rw [hroute, hc]⟩

/-- Witness for C9 with a concrete failing environment. -/
theorem C9_examples_degraded_states_witness :
    examplesFiles ⟨none, fun _ => Except.error "boom"⟩ = [] ∧
    examplesContent ⟨none, fun _ => Except.error "boom"⟩ (some "x") =
      "Error reading file: " ++ "boom" :=
  ⟨(C9_examples_degraded_states ⟨none, fun _ => Except.error "boom"⟩
      ⟨true, false, false, false, ""⟩ "x" "boom").1 rfl,
   ((C9_examples_degraded_states ⟨none, fun _ => Except.error "boom"⟩
      ⟨true, false, false, false, ""⟩ "x" "boom").2 rfl).1⟩

/-- C10: `analyze` computes word and unique-word counts from the final
processed token sequence while both character counts come from the raw
content; on a concrete input whose filtering removes tokens, the reported
word count (2) no longer corresponds to the raw text that was tokenized into
6 words and whose 25 characters are reported alongside it. -/
theorem C10_counts_provenance :
    (∀ (content : String) (o : Options) (v : Val) (snaps : SnapMap),
      run_pipeline content (toSteps (build_pipeline o)) = Except.ok (v, snaps) →
      analyze content o = Except.ok (buildResult content v snaps) ∧
      (buildResult content v snaps).word_count = get_word_count (valToks v) ∧
      (buildResult content v snaps).unique_word_count = get_unique_word_count (valToks v) ∧
      (buildResult content v snaps).char_count = get_character_count content ∧
      (buildResult content v snaps).char_count_no_spaces =
        get_character_count_no_spaces content) ∧
    ((analyze "The cat sat. The dog sat!" ⟨true, false, false, false, "the, sat"⟩).map
        (fun r => (r.word_count, r.char_count)) = Except.ok (2, 25) ∧
      get_word_count (tokenize "The cat sat. The dog sat!") = 6 ∧
      get_character_count "The cat sat. The dog sat!" = 25) := by
  constructor
  · intro content o v snaps h
    refine ⟨?_, rfl, rfl, rfl, rfl⟩
    unfold analyze
    simp only [h]
  · exact ⟨rfl, rfl, rfl⟩

/-- Witness for C10 at a concrete pipeline run. -/
theorem C10_counts_provenance_witness :
    analyze "" ⟨false, false, true, false, ""⟩ =
      Except.ok (buildResult "" (Val.toks [])
        [("raw", Val.toks []), ("before_stop_words", Val.toks []), ("final", Val.toks [])]) :=
  (C10_counts_provenance.1 "" ⟨false, false, true, false, ""⟩ (Val.toks [])
    [("raw", Val.toks []), ("before_stop_words", Val.toks []), ("final", Val.toks [])] rfl).1

end ZipfVis
